import Mathlib

/-!
Verification of the upload orchestrator of `commands/uploader.go` and the
`push` command of `commands/command_push.go` (git-lfs).

The Go code is shallowly embedded: the mutable `uploadContext` state becomes
explicit state passing, the two `TransferQueue` collaborators and the
`ProgressMeter` become effect traces (lists of the calls issued to them), and
the external collaborators (`lfs.ObjectExistsOfSize`, the remote existence
check delivered through `cq.Notify`, `uploadTransfer`) become an environment
of pure functions.  Sizes are Go `int64` values, embedded as `Int` (no
arithmetic other than addition of file sizes occurs, so overflow is not
modelled).
-/

namespace GitLfs

/-- Go `lfs.WrappedPointer`: the fields the uploader reads (`p.Oid`, `p.Size`,
`p.Name`). -/
structure WrappedPointer where
  oid : String
  size : Int
  name : String
  deriving DecidableEq, Repr

/-- The transfer descriptor returned by `uploadTransfer` and handed to
`q.Add(t.Name, t.Path, t.Oid, t.Size)`. -/
structure Transfer where
  name : String
  path : String
  oid : String
  size : Int
  deriving DecidableEq, Repr

/-- Failure of `uploadTransfer` (external collaborator): either a "clean
pointer" error carrying the on-disk pointer whose oid differs from the
requested one, or any other error. -/
inductive ResolveErr where
  | cleanPointer (actualOid : String)
  | other (msg : String)
  deriving DecidableEq, Repr

/-- The environment of external collaborators consumed by the uploader:
`lfs.ObjectExistsOfSize`, the per-oid result the check queue delivers to the
`Notify` callback (`ok` means the server already has the object), and
`uploadTransfer` resolving an oid/name to a transfer descriptor. -/
structure Env where
  localExists : String → Int → Bool
  remoteHas : String → Bool
  uploadTransfer : String → String → Except ResolveErr Transfer

/-- Go `tools.StringSet` is embedded as a list of strings with membership as the
`Contains` operation; `uploadContext.SetUploaded` adds the oid. -/
def SetUploaded (uploaded : List String) (oid : String) : List String :=
  oid :: uploaded

/-- Go `uploadContext.HasUploaded`. -/
def HasUploaded (uploaded : List String) (oid : String) : Bool :=
  oid ∈ uploaded

/-- Result of the first loop of `prepareUpload`: the locally-present
`uploadables`, the `missingLocalObjects`, the `missingSize` tally, and the
trace of `meter.Add` calls (sizes, in call order) and of
`lfs.ObjectExistsOfSize` queries (in call order). -/
structure Loop1Out where
  uploadables : List WrappedPointer
  missing : List WrappedPointer
  missingSize : Int
  meterAdds : List Int
  localChecks : List (String × Int)
  deriving Repr

/-- First loop of `prepareUpload` (uploader.go lines 77–104): skip a pointer
whose oid is in `uniqOids` or already uploaded; otherwise record it in
`uniqOids`, call `meter.Add(p.Size)`, and classify it by
`lfs.ObjectExistsOfSize(p.Oid, p.Size)` into `uploadables` or
`missingLocalObjects` (accumulating `missingSize`). -/
def loop1 (env : Env) (uploaded : List String) :
    List String → List WrappedPointer → Loop1Out
  | _, [] => ⟨[], [], 0, [], []⟩
  | uniqOids, p :: ps =>
    if p.oid ∈ uniqOids ∨ HasUploaded uploaded p.oid then
      loop1 env uploaded uniqOids ps
    else
      let rest := loop1 env uploaded (p.oid :: uniqOids) ps
      if env.localExists p.oid p.size then
        ⟨p :: rest.uploadables, rest.missing, rest.missingSize,
          p.size :: rest.meterAdds, (p.oid, p.size) :: rest.localChecks⟩
      else
        ⟨rest.uploadables, p :: rest.missing, p.size + rest.missingSize,
          p.size :: rest.meterAdds, (p.oid, p.size) :: rest.localChecks⟩

/-- Go `checkMissing` submits one check descriptor per missing pointer to the
check queue (`c.cq.Add(downloadTransfer(p))`) and blocks on the barrier until
every callback has fired; the submissions, in order. -/
def checkSubmissions (missing : List WrappedPointer) : List String :=
  missing.map (·.oid)

/-- The state of `uploadedOids` once `checkMissing` has returned: the
`Notify` callback ran once per submitted oid and called `SetUploaded` exactly
when the check answered `ok`.  The callbacks only add elements to the set, so
they commute; the barrier guarantees all have fired, and this serialization
(in submission order) has the same membership as any interleaving. -/
def afterChecks (env : Env) (uploaded : List String)
    (missing : List WrappedPointer) : List String :=
  ((missing.filter (fun p => env.remoteHas p.oid)).map (·.oid)) ++ uploaded

/-- Second loop of `prepareUpload` (uploader.go lines 108–117): a missing
pointer whose oid is now uploaded gets `c.tq.Skip(p.Size)`; the others are
appended to `uploadables`.  Returns (appended pointers, skip trace). -/
def loop2 (uploaded : List String) :
    List WrappedPointer → List WrappedPointer × List Int
  | [] => ([], [])
  | p :: ps =>
    let rest := loop2 uploaded ps
    if HasUploaded uploaded p.oid then
      (rest.1, p.size :: rest.2)
    else
      (p :: rest.1, rest.2)

/-- Everything observable about one `prepareUpload` call. -/
structure PrepareOut where
  ready : List WrappedPointer
  meterAdds : List Int
  localChecks : List (String × Int)
  checkSubs : List String
  skips : List Int
  uploaded : List String
  deriving Repr

/-- Go `uploadContext.prepareUpload` (uploader.go lines 69–120): first loop,
then `checkMissing` on the missing pointers (updating `uploadedOids` through
the callback), then the second loop appending survivors to `uploadables`. -/
def prepareUpload (env : Env) (uploaded : List String)
    (unfiltered : List WrappedPointer) : PrepareOut :=
  let l := loop1 env uploaded [] unfiltered
  let uploaded1 := afterChecks env uploaded l.missing
  let l2 := loop2 uploaded1 l.missing
  { ready := l.uploadables ++ l2.1
    meterAdds := l.meterAdds
    localChecks := l.localChecks
    checkSubs := checkSubmissions l.missing
    skips := l2.2
    uploaded := uploaded1 }

/-- The pointers `prepareUpload`'s first loop actually considers, described
as in the spec: the first occurrence of each distinct contentId that is not
already in UploadedSet, in input order.  `seen` carries the contentIds
already encountered in this call. -/
def distinctNew (uploaded : List String) :
    List String → List WrappedPointer → List WrappedPointer
  | _, [] => []
  | seen, p :: ps =>
    if p.oid ∈ seen ∨ p.oid ∈ uploaded then
      distinctNew uploaded seen ps
    else
      p :: distinctNew uploaded (p.oid :: seen) ps

/-- The notice `Print("push %s => %s", p.Oid, p.Name)` of dry-run mode. -/
def noticeOf (p : WrappedPointer) : String :=
  "push " ++ p.oid ++ " => " ++ p.name

/-- Dry-run branch of `uploadPointers` (uploader.go lines 135–145): for each
pointer not yet uploaded, print the notice and `SetUploaded` its oid.
Returns (printed notices in order, final uploaded set). -/
def dryRunLoop : List WrappedPointer → List String → List String × List String
  | [], uploaded => ([], uploaded)
  | p :: ps, uploaded =>
    if HasUploaded uploaded p.oid then
      dryRunLoop ps uploaded
    else
      let rest := dryRunLoop ps (SetUploaded uploaded p.oid)
      (noticeOf p :: rest.1, rest.2)

/-- Go `Exit(uploadMissingErr, p.Oid, p.Name, …)` / `ExitWithError(err)` inside
the upload loop: the process terminates immediately. -/
inductive FatalExit where
  | uploadMissing (oid name actualOid : String)
  | withError (msg : String)
  deriving DecidableEq, Repr

/-- The enqueue loop of `uploadPointers` (uploader.go lines 148–161),
accumulator style so that running it on a prefix of the ready list yields
exactly the intermediate state: resolve each pointer with `uploadTransfer`,
exit fatally on failure (clean-pointer errors get the dedicated message),
otherwise `q.Add` the descriptor and `SetUploaded` the oid. -/
def finalizeLoop (env : Env) :
    List WrappedPointer → List Transfer → List String →
    Except FatalExit (List Transfer × List String)
  | [], queueAdds, uploaded => .ok (queueAdds, uploaded)
  | p :: ps, queueAdds, uploaded =>
    match env.uploadTransfer p.oid p.name with
    | .error (ResolveErr.cleanPointer actual) =>
      .error (.uploadMissing p.oid p.name actual)
    | .error (ResolveErr.other msg) => .error (.withError msg)
    | .ok t =>
      finalizeLoop env ps (queueAdds ++ [t]) (SetUploaded uploaded p.oid)

/-- Everything observable about one `uploadPointers` call. -/
structure UploadOut where
  notices : List String
  meterAdds : List Int
  localChecks : List (String × Int)
  checkSubs : List String
  skips : List Int
  queueAdds : List Transfer
  uploaded : List String
  deriving Repr

/-- Go `uploadPointers` (uploader.go lines 134–162): dry-run prints notices and
marks oids without touching `prepareUpload`, the queues or the local store;
otherwise `prepareUpload` runs and each ready pointer is resolved, enqueued
on the upload queue and marked uploaded (a resolution failure exits the
process). -/
def uploadPointers (env : Env) (dryRun : Bool) (uploaded : List String)
    (unfiltered : List WrappedPointer) : Except FatalExit UploadOut :=
  if dryRun then
    let d := dryRunLoop unfiltered uploaded
    .ok { notices := d.1, meterAdds := [], localChecks := [], checkSubs := [],
          skips := [], queueAdds := [], uploaded := d.2 }
  else
    let pre := prepareUpload env uploaded unfiltered
    (finalizeLoop env pre.ready [] pre.uploaded).map fun fin =>
      { notices := [], meterAdds := pre.meterAdds,
        localChecks := pre.localChecks, checkSubs := pre.checkSubs,
        skips := pre.skips, queueAdds := fin.1, uploaded := fin.2 }

/-- Observable outcome of `uploadContext.Await` (uploader.go lines 164–174),
taking the error list the drained upload queue reports: every error is passed
to `FullError` in order, and the process exits with status 2 exactly when
that list is non-empty. -/
structure AwaitOut where
  reported : List String
  exitStatus : Option Nat
  deriving DecidableEq, Repr

/-- Go `uploadContext.Await`: wait for the upload queue to drain (modelled by
receiving its final accumulated error list), report each error, and
`os.Exit(2)` when any error occurred. -/
def Await (queueErrors : List String) : AwaitOut :=
  { reported := queueErrors.foldl (fun acc e => acc ++ [e]) []
    exitStatus := if queueErrors.length > 0 then some 2 else none }

/-- Observable outcome of `pushCommand`'s argument validation
(command_push.go lines 122–153). -/
inductive PushOutcome where
  | exited (status : Nat)
  | reportedExited (msg : String) (status : Nat)
  | usageReturn (msg : String)
  | proceeded (objectIds : Bool) (rest : List String)
  deriving DecidableEq, Repr

/-- Modelled from the spec: the `Exit` helper called by `pushCommand` on an
invalid remote name is defined outside this repository's sources (only its
callers are present).  The spec classifies an invalid remote name as a usage
error ("invalid or missing arguments; reported, process exits with status 1
before any transfer work begins"), so this path reports the message and
exits the process with status 1. -/
def exitHelper (msg : String) : PushOutcome :=
  .reportedExited msg 1

/-- Go `pushCommand` (command_push.go lines 122–153): with no arguments print
the hint and `os.Exit(1)`; an invalid remote name terminates through the
`Exit` helper; with `--object-id` and fewer than two arguments print the
usage line and return (no exit); otherwise proceed to the upload work with
the remaining arguments. -/
def pushCommand (validRemote : String → Bool) (pushObjectIDs : Bool)
    (args : List String) : PushOutcome :=
  match args with
  | [] => .exited 1
  | remote :: rest =>
    if validRemote remote then
      if pushObjectIDs then
        if args.length < 2 then
          .usageReturn "Usage: git lfs push --object-id <remote> <lfs-object-id> [lfs-object-id] ..."
        else
          .proceeded true rest
      else
        .proceeded false rest
    else
      exitHelper ("Invalid remote name " ++ remote)

/-! ### Characterization of the first loop -/

theorem distinctNew_sublist (uploaded seen : List String)
    (ps : List WrappedPointer) : (distinctNew uploaded seen ps).Sublist ps := by
  induction ps generalizing seen with
  | nil => simp [distinctNew]
  | cons p ps ih =>
    rw [distinctNew]
    split
    · exact (ih seen).trans (List.sublist_cons_self p ps)
    · exact (ih (p.oid :: seen)).cons₂ p

theorem distinctNew_oid_not_mem (uploaded seen : List String)
    (ps : List WrappedPointer) :
    ∀ p ∈ distinctNew uploaded seen ps, p.oid ∉ seen ∧ p.oid ∉ uploaded := by
  induction ps generalizing seen with
  | nil => simp [distinctNew]
  | cons p ps ih =>
    rw [distinctNew]
    split
    · exact ih seen
    · rename_i h
      push_neg at h
      intro q hq
      rcases List.mem_cons.1 hq with hq | hq
      · exact hq ▸ h
      · have := ih (p.oid :: seen) q hq
        exact ⟨fun hs => this.1 (List.mem_cons_of_mem _ hs), this.2⟩

theorem distinctNew_oid_nodup (uploaded seen : List String)
    (ps : List WrappedPointer) :
    ((distinctNew uploaded seen ps).map (·.oid)).Nodup := by
  induction ps generalizing seen with
  | nil => simp [distinctNew]
  | cons p ps ih =>
    rw [distinctNew]
    split
    · exact ih seen
    · simp only [List.map_cons, List.nodup_cons]
      refine ⟨fun hmem => ?_, ih (p.oid :: seen)⟩
      obtain ⟨q, hq, hoid⟩ := List.mem_map.1 hmem
      exact (distinctNew_oid_not_mem uploaded (p.oid :: seen) ps q hq).1
        (hoid ▸ List.mem_cons_self p.oid seen)

theorem distinctNew_covers (uploaded seen : List String)
    (ps : List WrappedPointer) :
    ∀ p ∈ ps, p.oid ∈ seen ∨ p.oid ∈ uploaded ∨
      p.oid ∈ (distinctNew uploaded seen ps).map (·.oid) := by
  induction ps generalizing seen with
  | nil => simp
  | cons p ps ih =>
    intro q hq
    rw [distinctNew]
    split
    · rename_i h
      rcases List.mem_cons.1 hq with hq | hq
      · subst hq
        rcases h with h | h
        · exact Or.inl h
        · exact Or.inr (Or.inl h)
      · exact ih seen q hq
    · rcases List.mem_cons.1 hq with hq | hq
      · subst hq
        exact Or.inr (Or.inr (by simp))
      · rcases ih (p.oid :: seen) q hq with h | h | h
        · rcases List.mem_cons.1 h with h | h
          · exact Or.inr (Or.inr (by simp [h]))
          · exact Or.inl h
        · exact Or.inr (Or.inl h)
        · exact Or.inr (Or.inr (by simp only [List.map_cons]; exact List.mem_cons_of_mem _ h))

theorem loop1_eq (env : Env) (uploaded seen : List String)
    (ps : List WrappedPointer) :
    loop1 env uploaded seen ps =
      { uploadables :=
          (distinctNew uploaded seen ps).filter
            (fun p => env.localExists p.oid p.size)
        missing :=
          (distinctNew uploaded seen ps).filter
            (fun p => !(env.localExists p.oid p.size))
        missingSize :=
          (((distinctNew uploaded seen ps).filter
            (fun p => !(env.localExists p.oid p.size))).map (·.size)).sum
        meterAdds := (distinctNew uploaded seen ps).map (·.size)
        localChecks := (distinctNew uploaded seen ps).map (fun p => (p.oid, p.size)) } := by
  induction ps generalizing seen with
  | nil => simp [loop1, distinctNew]
  | cons p ps ih =>
    rw [loop1, distinctNew]
    have hcond : (p.oid ∈ seen ∨ HasUploaded uploaded p.oid = true) ↔
        (p.oid ∈ seen ∨ p.oid ∈ uploaded) := by
      simp [HasUploaded]
    split
    · rename_i h
      rw [if_pos (hcond.1 h)]
      exact ih seen
    · rename_i h
      rw [if_neg (fun hc => h (hcond.2 hc))]
      rw [ih (p.oid :: seen)]
      by_cases hl : env.localExists p.oid p.size
      · simp [hl]
      · simp [hl]

/-! ### The check phase and the second loop -/

theorem loop2_eq (w : List String) (ms : List WrappedPointer) :
    loop2 w ms =
      (ms.filter (fun p => !(HasUploaded w p.oid)),
       (ms.filter (fun p => HasUploaded w p.oid)).map (·.size)) := by
  induction ms with
  | nil => simp [loop2]
  | cons p ps ih =>
    rw [loop2, ih]
    by_cases h : HasUploaded w p.oid
    · simp [h]
    · simp [h]

theorem mem_afterChecks (env : Env) (uploaded : List String)
    (ms : List WrappedPointer) (oid : String) :
    oid ∈ afterChecks env uploaded ms ↔
      (∃ p ∈ ms, p.oid = oid ∧ env.remoteHas oid = true) ∨ oid ∈ uploaded := by
  simp only [afterChecks, List.mem_append, List.mem_map, List.mem_filter]
  constructor
  · rintro (⟨p, ⟨hp, hr⟩, hoid⟩ | hu)
    · exact Or.inl ⟨p, hp, hoid, hoid ▸ hr⟩
    · exact Or.inr hu
  · rintro (⟨p, hp, hoid, hr⟩ | hu)
    · exact Or.inl ⟨p, ⟨hp, hoid ▸ hr⟩, hoid⟩
    · exact Or.inr hu

theorem hasUploaded_afterChecks (env : Env) (uploaded : List String)
    (ms : List WrappedPointer) (p : WrappedPointer) (hp : p ∈ ms)
    (hu : p.oid ∉ uploaded) :
    HasUploaded (afterChecks env uploaded ms) p.oid = env.remoteHas p.oid := by
  by_cases hr : env.remoteHas p.oid
  · have : p.oid ∈ afterChecks env uploaded ms :=
      (mem_afterChecks env uploaded ms p.oid).2 (Or.inl ⟨p, hp, rfl, hr⟩)
    simp [HasUploaded, this, hr]
  · have : p.oid ∉ afterChecks env uploaded ms := by
      intro hmem
      rcases (mem_afterChecks env uploaded ms p.oid).1 hmem with ⟨q, _, _, hq⟩ | h
      · exact hr hq
      · exact hu h
    simp only [HasUploaded, decide_eq_true_eq]
    simp [this, Bool.eq_false_iff.2 hr]

theorem sum_size_filter_add (f : WrappedPointer → Bool)
    (l : List WrappedPointer) :
    (((l.filter f).map (·.size)).sum : Int) +
      ((l.filter (fun p => !(f p))).map (·.size)).sum =
      (l.map (·.size)).sum := by
  induction l with
  | nil => simp
  | cons p ps ih =>
    cases hf : f p
    · simp [List.filter_cons, hf]
      omega
    · simp [List.filter_cons, hf]
      omega

/-! ### The dry-run loop -/

theorem dryRunLoop_eq (ps : List WrappedPointer) (uploaded seen : List String) :
    dryRunLoop ps (seen ++ uploaded) =
      ((distinctNew uploaded seen ps).map noticeOf,
       ((distinctNew uploaded seen ps).map (·.oid)).reverse ++ (seen ++ uploaded)) := by
  induction ps generalizing seen with
  | nil => simp [dryRunLoop, distinctNew]
  | cons p ps ih =>
    rw [dryRunLoop, distinctNew]
    have hcond : HasUploaded (seen ++ uploaded) p.oid = true ↔
        (p.oid ∈ seen ∨ p.oid ∈ uploaded) := by
      simp [HasUploaded]
    by_cases h : p.oid ∈ seen ∨ p.oid ∈ uploaded
    · rw [if_pos (hcond.2 h), if_pos h]
      exact ih seen
    · rw [if_neg (fun hc => h (hcond.1 hc)), if_neg h]
      have : SetUploaded (seen ++ uploaded) p.oid = (p.oid :: seen) ++ uploaded := rfl
      rw [this, ih (p.oid :: seen)]
      simp

theorem dryRunLoop_base (ps : List WrappedPointer) (uploaded : List String) :
    dryRunLoop ps uploaded =
      ((distinctNew uploaded [] ps).map noticeOf,
       ((distinctNew uploaded [] ps).map (·.oid)).reverse ++ uploaded) := by
  have := dryRunLoop_eq ps uploaded []
  simpa using this

/-! ### The finalize loop -/

theorem finalizeLoop_subset (env : Env) (l : List WrappedPointer)
    (qa : List Transfer) (u : List String)
    (out : List Transfer × List String)
    (h : finalizeLoop env l qa u = .ok out) : u ⊆ out.2 := by
  induction l generalizing qa u with
  | nil =>
    rw [finalizeLoop] at h
    cases h
    exact fun a ha => ha
  | cons p ps ih =>
    rw [finalizeLoop] at h
    cases ht : env.uploadTransfer p.oid p.name with
    | error e =>
      rw [ht] at h
      cases e <;> cases h
    | ok t =>
      rw [ht] at h
      have := ih _ _ h
      exact fun a ha => this (List.mem_cons_of_mem _ ha)

theorem finalizeLoop_marks (env : Env) (l : List WrappedPointer)
    (qa : List Transfer) (u : List String)
    (out : List Transfer × List String)
    (h : finalizeLoop env l qa u = .ok out) : ∀ p ∈ l, p.oid ∈ out.2 := by
  induction l generalizing qa u with
  | nil => simp
  | cons p ps ih =>
    rw [finalizeLoop] at h
    cases ht : env.uploadTransfer p.oid p.name with
    | error e =>
      rw [ht] at h
      cases e <;> cases h
    | ok t =>
      rw [ht] at h
      intro q hq
      rcases List.mem_cons.1 hq with hq | hq
      · exact hq ▸ finalizeLoop_subset env ps _ _ out h (List.mem_cons_self _ _)
      · exact ih _ _ h q hq

/-- Full characterization of `prepareUpload`: the first loop keeps the first
occurrence of each not-yet-uploaded contentId and splits it by local
existence; the check phase marks the remote-confirmed missing pointers
uploaded; the second loop skips exactly those and appends the rest. -/
theorem prepareUpload_spec (env : Env) (u : List String)
    (ps : List WrappedPointer) :
    prepareUpload env u ps =
      { ready :=
          (distinctNew u [] ps).filter (fun p => env.localExists p.oid p.size) ++
          ((distinctNew u [] ps).filter
            (fun p => !(env.localExists p.oid p.size))).filter
            (fun p => !(env.remoteHas p.oid))
        meterAdds := (distinctNew u [] ps).map (·.size)
        localChecks := (distinctNew u [] ps).map (fun p => (p.oid, p.size))
        checkSubs :=
          ((distinctNew u [] ps).filter
            (fun p => !(env.localExists p.oid p.size))).map (·.oid)
        skips :=
          (((distinctNew u [] ps).filter
            (fun p => !(env.localExists p.oid p.size))).filter
            (fun p => env.remoteHas p.oid)).map (·.size)
        uploaded :=
          afterChecks env u
            ((distinctNew u [] ps).filter
              (fun p => !(env.localExists p.oid p.size))) } := by
  have hmiss : ∀ p ∈ (distinctNew u [] ps).filter
      (fun p => !(env.localExists p.oid p.size)), p.oid ∉ u :=
    fun p hp => (distinctNew_oid_not_mem u [] ps p (List.mem_of_mem_filter hp)).2
  have hskip :
      ((distinctNew u [] ps).filter
        (fun p => !(env.localExists p.oid p.size))).filter
        (fun p => HasUploaded
          (afterChecks env u ((distinctNew u [] ps).filter
            (fun p => !(env.localExists p.oid p.size)))) p.oid) =
      ((distinctNew u [] ps).filter
        (fun p => !(env.localExists p.oid p.size))).filter
        (fun p => env.remoteHas p.oid) :=
    List.filter_congr (fun p hp =>
      hasUploaded_afterChecks env u _ p hp (hmiss p hp))
  have hstill :
      ((distinctNew u [] ps).filter
        (fun p => !(env.localExists p.oid p.size))).filter
        (fun p => !(HasUploaded
          (afterChecks env u ((distinctNew u [] ps).filter
            (fun p => !(env.localExists p.oid p.size)))) p.oid)) =
      ((distinctNew u [] ps).filter
        (fun p => !(env.localExists p.oid p.size))).filter
        (fun p => !(env.remoteHas p.oid)) :=
    List.filter_congr (fun p hp => by
      rw [hasUploaded_afterChecks env u _ p hp (hmiss p hp)])
  simp only [prepareUpload, loop1_eq, loop2_eq, checkSubmissions]
  rw [hskip, hstill]

/-- C1: `prepareUpload` submits exactly one existence check per distinct
contentId that is not already uploaded and whose (first-occurrence) pointer
is locally absent; no check is submitted for a considered pointer that is
locally present with matching size, and duplicated contentIds yield at most
one submission (the submission list has no duplicates). -/
theorem prepare_one_check_per_new_missing_oid (env : Env) (u : List String)
    (ps : List WrappedPointer) :
    (prepareUpload env u ps).checkSubs =
      ((distinctNew u [] ps).filter
        (fun p => !(env.localExists p.oid p.size))).map (·.oid) ∧
    (prepareUpload env u ps).checkSubs.Nodup ∧
    (∀ oid ∈ (prepareUpload env u ps).checkSubs, oid ∉ u) ∧
    (∀ p ∈ distinctNew u [] ps, env.localExists p.oid p.size = true →
      p.oid ∉ (prepareUpload env u ps).checkSubs) := by
  have hcs : (prepareUpload env u ps).checkSubs =
      ((distinctNew u [] ps).filter
        (fun p => !(env.localExists p.oid p.size))).map (·.oid) := by
    rw [prepareUpload_spec]
  refine ⟨hcs, ?_, ?_, ?_⟩
  · rw [hcs]
    exact List.Nodup.sublist
      (List.Sublist.map (fun p : WrappedPointer => p.oid)
        (List.filter_sublist (distinctNew u [] ps)))
      (distinctNew_oid_nodup u [] ps)
  · intro oid hmem
    rw [hcs] at hmem
    obtain ⟨p, hp, hoid⟩ := List.mem_map.1 hmem
    exact hoid ▸ (distinctNew_oid_not_mem u [] ps p (List.mem_of_mem_filter hp)).2
  · intro p hp hl hmem
    rw [hcs] at hmem
    obtain ⟨q, hq, hoid⟩ := List.mem_map.1 hmem
    have hqd := List.mem_of_mem_filter hq
    have : q = p :=
      List.inj_on_of_nodup_map (distinctNew_oid_nodup u [] ps) hqd hp hoid
    subst this
    have := (List.mem_filter.1 hq).2
    simp [hl] at this

/-- C2: the meter's `Add` is called exactly once, with the pointer's size,
per distinct not-already-uploaded pointer, before classification; the sizes
of the surviving ready pointers plus the skipped sizes add up to the sizes
of all distinct pointers considered. -/
theorem prepare_progress_accounting (env : Env) (u : List String)
    (ps : List WrappedPointer) :
    (prepareUpload env u ps).meterAdds = (distinctNew u [] ps).map (·.size) ∧
    ((prepareUpload env u ps).ready.map (·.size)).sum +
      (prepareUpload env u ps).skips.sum =
      (prepareUpload env u ps).meterAdds.sum := by
  have hadds : (prepareUpload env u ps).meterAdds =
      (distinctNew u [] ps).map (·.size) := by
    rw [prepareUpload_spec]
  have hready : (prepareUpload env u ps).ready =
      (distinctNew u [] ps).filter (fun p => env.localExists p.oid p.size) ++
      ((distinctNew u [] ps).filter
        (fun p => !(env.localExists p.oid p.size))).filter
        (fun p => !(env.remoteHas p.oid)) := by
    rw [prepareUpload_spec]
  have hskips : (prepareUpload env u ps).skips =
      (((distinctNew u [] ps).filter
        (fun p => !(env.localExists p.oid p.size))).filter
        (fun p => env.remoteHas p.oid)).map (·.size) := by
    rw [prepareUpload_spec]
  refine ⟨hadds, ?_⟩
  rw [hadds, hready, hskips]
  simp only [List.map_append, List.sum_append]
  have h1 := sum_size_filter_add (fun p => env.localExists p.oid p.size)
    (distinctNew u [] ps)
  have h2 := sum_size_filter_add (fun p => env.remoteHas p.oid)
    ((distinctNew u [] ps).filter (fun p => !(env.localExists p.oid p.size)))
  omega

/-- C3: after the check barrier, a to-check pointer confirmed remote gets
exactly one skip of its size and is neither in the ready list nor enqueued,
the others are appended to the ready list, and `uploaded` afterwards holds a
contentId iff it was already uploaded or was submitted for checking and the
check reported the remote has it. -/
theorem check_results_skip_or_append (env : Env) (u : List String)
    (ps : List WrappedPointer) :
    (prepareUpload env u ps).skips =
      (((distinctNew u [] ps).filter
        (fun p => !(env.localExists p.oid p.size))).filter
        (fun p => env.remoteHas p.oid)).map (·.size) ∧
    (prepareUpload env u ps).ready =
      (distinctNew u [] ps).filter (fun p => env.localExists p.oid p.size) ++
      ((distinctNew u [] ps).filter
        (fun p => !(env.localExists p.oid p.size))).filter
        (fun p => !(env.remoteHas p.oid)) ∧
    (∀ oid, oid ∈ (prepareUpload env u ps).uploaded ↔
      oid ∈ u ∨ (oid ∈ (prepareUpload env u ps).checkSubs ∧
        env.remoteHas oid = true)) ∧
    (∀ p ∈ (distinctNew u [] ps).filter
        (fun p => !(env.localExists p.oid p.size)),
      env.remoteHas p.oid = true → p ∉ (prepareUpload env u ps).ready) := by
  have hup : (prepareUpload env u ps).uploaded =
      afterChecks env u
        ((distinctNew u [] ps).filter
          (fun p => !(env.localExists p.oid p.size))) := by
    rw [prepareUpload_spec]
  have hcs : (prepareUpload env u ps).checkSubs =
      ((distinctNew u [] ps).filter
        (fun p => !(env.localExists p.oid p.size))).map (·.oid) := by
    rw [prepareUpload_spec]
  have hready : (prepareUpload env u ps).ready =
      (distinctNew u [] ps).filter (fun p => env.localExists p.oid p.size) ++
      ((distinctNew u [] ps).filter
        (fun p => !(env.localExists p.oid p.size))).filter
        (fun p => !(env.remoteHas p.oid)) := by
    rw [prepareUpload_spec]
  refine ⟨by rw [prepareUpload_spec], hready, ?_, ?_⟩
  · intro oid
    rw [hup, hcs, mem_afterChecks]
    simp only [List.mem_map]
    constructor
    · rintro (⟨p, hp, hoid, hr⟩ | hu)
      · exact Or.inr ⟨⟨p, hp, hoid⟩, hr⟩
      · exact Or.inl hu
    · rintro (hu | ⟨⟨p, hp, hoid⟩, hr⟩)
      · exact Or.inr hu
      · exact Or.inl ⟨p, hp, hoid, hr⟩
  · intro p hp hr hmem
    rw [hready] at hmem
    rcases List.mem_append.1 hmem with hm | hm
    · have hl := (List.mem_filter.1 hm).2
      have hnl := (List.mem_filter.1 hp).2
      simp only [decide_eq_true_eq] at hl
      simp [hl] at hnl
    · have := (List.mem_filter.1 hm).2
      simp [hr] at this

/-! ### Concrete fixtures -/

/-- Fixture pointer with contentId "A", locally absent in `envBA`. -/
def pA : WrappedPointer := ⟨"A", 1, "fa"⟩

/-- Fixture pointer with contentId "B", locally present in `envBA`. -/
def pB : WrappedPointer := ⟨"B", 2, "fb"⟩

/-- Fixture environment: only "B" exists locally, the remote has nothing,
resolution always succeeds. -/
def envBA : Env :=
  { localExists := fun o _ => o == "B"
    remoteHas := fun _ => false
    uploadTransfer := fun o n => .ok ⟨n, "objects/" ++ o, o, 1⟩ }

/-- C4 counterexample: with input `[pA, pB]` where "A" is locally absent and
"B" locally present (neither remote), both survive but the ready list is
`[pB, pA]`: the locally-missing pointer is moved behind the locally-present
one, so the ready list is not an input-order subsequence. -/
theorem ready_list_reorders_counterexample :
    (prepareUpload envBA [] [pA, pB]).ready = [pB, pA] ∧
    ¬ (prepareUpload envBA [] [pA, pB]).ready.Sublist [pA, pB] := by
  constructor
  · decide
  · decide

/-- C4 amended: the ready list is the locally-present considered pointers in
input order followed by the checked-but-still-missing considered pointers in
input order; each of the two groups separately preserves the input order (is
a subsequence of the input), but the groups are concatenated, so a
still-missing pointer can follow a locally-present pointer that occurred
later in the input. -/
theorem ready_list_two_ordered_groups (env : Env) (u : List String)
    (ps : List WrappedPointer) :
    (prepareUpload env u ps).ready =
      (distinctNew u [] ps).filter (fun p => env.localExists p.oid p.size) ++
      ((distinctNew u [] ps).filter
        (fun p => !(env.localExists p.oid p.size))).filter
        (fun p => !(env.remoteHas p.oid)) ∧
    ((distinctNew u [] ps).filter
      (fun p => env.localExists p.oid p.size)).Sublist ps ∧
    (((distinctNew u [] ps).filter
      (fun p => !(env.localExists p.oid p.size))).filter
      (fun p => !(env.remoteHas p.oid))).Sublist ps := by
  refine ⟨by rw [prepareUpload_spec], ?_, ?_⟩
  · exact (List.filter_sublist _).trans (distinctNew_sublist u [] ps)
  · exact ((List.filter_sublist _).trans (List.filter_sublist _)).trans
      (distinctNew_sublist u [] ps)

/-- C5: the uploaded set only ever grows (`prepareUpload`, the dry-run loop,
and the enqueue loop all preserve previous members), and in the non-dry-run
upload phase every ready pointer's contentId is in the uploaded set from the
moment its descriptor has been handed to the upload queue (the state right
after processing a prefix of the ready list contains the oids of that whole
prefix). -/
theorem uploaded_monotone_marked_at_handoff (env : Env) (u : List String)
    (ps : List WrappedPointer) :
    u ⊆ (prepareUpload env u ps).uploaded ∧
    (∀ dryRun out, uploadPointers env dryRun u ps = .ok out →
      u ⊆ out.uploaded) ∧
    (∀ l qa u' out, finalizeLoop env l qa u' = .ok out → u' ⊆ out.2) ∧
    (∀ pre p qa u' out, finalizeLoop env (pre ++ [p]) qa u' = .ok out →
      p.oid ∈ out.2 ∧ ∀ q ∈ pre, q.oid ∈ out.2) ∧
    (∀ out, uploadPointers env false u ps = .ok out →
      ∀ p ∈ (prepareUpload env u ps).ready, p.oid ∈ out.uploaded) := by
  have hprep : u ⊆ (prepareUpload env u ps).uploaded := by
    rw [prepareUpload_spec]
    intro a ha
    simp only [afterChecks, List.mem_append]
    exact Or.inr ha
  refine ⟨hprep, ?_, ?_, ?_, ?_⟩
  · intro dryRun out h
    cases dryRun with
    | true =>
      simp only [uploadPointers, if_true] at h
      cases h
      rw [dryRunLoop_base]
      intro a ha
      exact List.mem_append.2 (Or.inr ha)
    | false =>
      simp only [uploadPointers, if_false, Bool.false_eq_true] at h
      cases hfl : finalizeLoop env (prepareUpload env u ps).ready []
          (prepareUpload env u ps).uploaded with
      | error e => rw [hfl] at h; cases h
      | ok fin =>
        rw [hfl] at h
        cases h
        exact fun a ha =>
          finalizeLoop_subset env _ _ _ _ hfl (hprep ha)
  · exact fun l qa u' out h => finalizeLoop_subset env l qa u' out h
  · intro pre p qa u' out h
    refine ⟨finalizeLoop_marks env _ _ _ _ h p ?_, fun q hq =>
      finalizeLoop_marks env _ _ _ _ h q (List.mem_append.2 (Or.inl hq))⟩
    exact List.mem_append.2 (Or.inr (List.mem_cons_self _ _))
  · intro out h p hp
    simp only [uploadPointers, if_false, Bool.false_eq_true] at h
    cases hfl : finalizeLoop env (prepareUpload env u ps).ready []
        (prepareUpload env u ps).uploaded with
    | error e => rw [hfl] at h; cases h
    | ok fin =>
      rw [hfl] at h
      cases h
      exact finalizeLoop_marks env _ _ _ _ hfl p hp

theorem distinctNew_nil (uploaded seen : List String)
    (ps : List WrappedPointer) (h : ∀ p ∈ ps, p.oid ∈ uploaded) :
    distinctNew uploaded seen ps = [] := by
  induction ps generalizing seen with
  | nil => rfl
  | cons p ps ih =>
    rw [distinctNew, if_pos (Or.inr (h p (List.mem_cons_self p ps)))]
    exact ih seen (fun q hq => h q (List.mem_cons_of_mem p hq))

/-- C6: when every contentId of the input list is already marked uploaded,
a second orchestrator run performs no work: nothing is considered, no check
is submitted, the ready list is empty, and `uploadPointers` (in either mode)
enqueues nothing, prints nothing and leaves the uploaded set unchanged. -/
theorem orchestrator_idempotent (env : Env) (u : List String)
    (ps : List WrappedPointer) (h : ∀ p ∈ ps, p.oid ∈ u) :
    (prepareUpload env u ps).ready = [] ∧
    (prepareUpload env u ps).checkSubs = [] ∧
    (prepareUpload env u ps).meterAdds = [] ∧
    (prepareUpload env u ps).skips = [] ∧
    (prepareUpload env u ps).uploaded = u ∧
    (∀ dryRun, uploadPointers env dryRun u ps =
      .ok { notices := [], meterAdds := [], localChecks := [], checkSubs := [],
            skips := [], queueAdds := [], uploaded := u }) := by
  have hd : distinctNew u [] ps = [] := distinctNew_nil u [] ps h
  have hpre : prepareUpload env u ps =
      { ready := [], meterAdds := [], localChecks := [], checkSubs := [],
        skips := [], uploaded := u } := by
    rw [prepareUpload_spec, hd]
    simp [afterChecks]
  refine ⟨by rw [hpre], by rw [hpre], by rw [hpre], by rw [hpre],
    by rw [hpre], ?_⟩
  intro dryRun
  cases dryRun with
  | true =>
    simp only [uploadPointers, if_true]
    rw [dryRunLoop_base, hd]
    simp
  | false =>
    simp only [uploadPointers, if_false, Bool.false_eq_true, hpre]
    rw [finalizeLoop]
    rfl

/-! ### Await -/

theorem foldl_append_singleton (l acc : List String) :
    List.foldl (fun acc e => acc ++ [e]) acc l = acc ++ l := by
  induction l generalizing acc with
  | nil => simp
  | cons e l ih => rw [List.foldl_cons, ih]; simp

/-- C7: `Await` reports every accumulated error of the drained upload queue
in order, exits the process with status 2 exactly when the error list is
non-empty (a status distinct from the usage-error status 1), and returns
normally on an empty error list. -/
theorem await_reports_and_exits_two (errs : List String) :
    (Await errs).reported = errs ∧
    ((Await errs).exitStatus = some 2 ↔ errs ≠ []) ∧
    (Await errs).exitStatus ≠ some 1 ∧
    (Await []).exitStatus = none := by
  refine ⟨?_, ?_, ?_, rfl⟩
  · simpa using foldl_append_singleton errs []
  · cases errs <;> simp [Await]
  · cases errs <;> simp [Await]

/-! ### Dry-run mode -/

/-- C8: in dry-run mode `uploadPointers` emits the notice
`"push <contentId> => <path>"` once for each first occurrence of a
not-yet-uploaded contentId, marks exactly those contentIds uploaded (so
afterwards every input pointer's contentId is in the uploaded set), and
issues no meter call, no local-store query, no check submission, no skip and
no upload-queue addition. -/
theorem dry_run_notices_and_frame (env : Env) (u : List String)
    (ps : List WrappedPointer) :
    uploadPointers env true u ps =
      .ok { notices := (distinctNew u [] ps).map noticeOf,
            meterAdds := [], localChecks := [], checkSubs := [], skips := [],
            queueAdds := [],
            uploaded := ((distinctNew u [] ps).map (·.oid)).reverse ++ u } ∧
    ∀ p ∈ ps, p.oid ∈ ((distinctNew u [] ps).map (·.oid)).reverse ++ u := by
  constructor
  · simp only [uploadPointers, if_true]
    rw [dryRunLoop_base]
  · intro p hp
    rcases distinctNew_covers u [] ps p hp with hc | hc | hc
    · cases hc
    · exact List.mem_append.2 (Or.inr hc)
    · exact List.mem_append.2 (Or.inl (List.mem_reverse.2 hc))

/-- C10: dry-run deduplication: within one call exactly one notice is
printed per distinct not-yet-uploaded contentId (the noticed contentIds are
pairwise distinct), and a second dry-run call continuing from the first
call's uploaded set never repeats a contentId noticed in the first call (the
noticed contentIds of both calls together are pairwise distinct). -/
theorem dry_run_dedup_within_and_across (env : Env) (u : List String)
    (ps1 ps2 : List WrappedPointer) :
    uploadPointers env true u ps1 =
      .ok { notices := (dryRunLoop ps1 u).1, meterAdds := [],
            localChecks := [], checkSubs := [], skips := [], queueAdds := [],
            uploaded := (dryRunLoop ps1 u).2 } ∧
    (dryRunLoop ps1 u).1 = (distinctNew u [] ps1).map noticeOf ∧
    (dryRunLoop ps2 (dryRunLoop ps1 u).2).1 =
      (distinctNew (dryRunLoop ps1 u).2 [] ps2).map noticeOf ∧
    (((distinctNew u [] ps1).map (·.oid)) ++
      ((distinctNew (dryRunLoop ps1 u).2 [] ps2).map (·.oid))).Nodup := by
  refine ⟨by simp only [uploadPointers, if_true], ?_, ?_, ?_⟩
  · rw [dryRunLoop_base]
  · rw [dryRunLoop_base ps2]
  · refine List.Nodup.append (distinctNew_oid_nodup u [] ps1)
      (distinctNew_oid_nodup _ [] ps2) ?_
    intro a ha hb
    obtain ⟨p, hp, hoid⟩ := List.mem_map.1 hb
    have hnot := (distinctNew_oid_not_mem _ [] ps2 p hp).2
    rw [dryRunLoop_base] at hnot
    exact hnot (List.mem_append.2 (Or.inl (List.mem_reverse.2 (hoid ▸ ha))))

/-! ### The push command's argument validation -/

/-- C9 counterexample: `push --object-id origin` (a valid remote but no
object ids) prints the usage message and returns without exiting: the
process does not exit with status 1. -/
theorem push_objectid_usage_does_not_exit :
    pushCommand (fun _ => true) true ["origin"] =
      .usageReturn
        "Usage: git lfs push --object-id <remote> <lfs-object-id> [lfs-object-id] ..." ∧
    pushCommand (fun _ => true) true ["origin"] ≠ .exited 1 := by
  constructor
  · rfl
  · decide

/-- C9 amended: with no arguments the push command exits with status 1
before any transfer work; an invalid remote name is reported and the process
exits with status 1 before any transfer work (the absent `Exit` helper being
modelled from the spec's usage-error clause); `--object-id` with no object
ids prints the usage message and returns normally without exiting; and the
command proceeds to transfer work only when the argument list is non-empty,
the remote is valid, and `--object-id` received at least one object id. -/
theorem push_usage_validation (validRemote : String → Bool) (objIds : Bool)
    (args : List String) :
    (args = [] → pushCommand validRemote objIds args = .exited 1) ∧
    (∀ remote rest, args = remote :: rest → validRemote remote = false →
      pushCommand validRemote objIds args =
        .reportedExited ("Invalid remote name " ++ remote) 1) ∧
    (∀ remote, args = [remote] → validRemote remote = true → objIds = true →
      pushCommand validRemote objIds args =
        .usageReturn
          "Usage: git lfs push --object-id <remote> <lfs-object-id> [lfs-object-id] ...") ∧
    (∀ s rest, pushCommand validRemote objIds args = .proceeded s rest →
      ∃ remote, args = remote :: rest ∧ validRemote remote = true ∧
        s = objIds ∧ (objIds = true → rest ≠ [])) := by
  refine ⟨?_, ?_, ?_, ?_⟩
  · intro h
    subst h
    rfl
  · intro remote rest h hval
    subst h
    simp [pushCommand, hval, exitHelper]
  · intro remote h hval hobj
    subst h
    subst hobj
    simp [pushCommand, hval]
  · intro s rest h
    cases args with
    | nil => cases h
    | cons remote rest' =>
      by_cases hval : validRemote remote
      · cases objIds with
        | false =>
          simp only [pushCommand, hval, if_true, if_false,
            Bool.false_eq_true] at h
          cases h
          exact ⟨remote, rfl, hval, rfl, by simp⟩
        | true =>
          by_cases hlen : (remote :: rest').length < 2
          · simp only [pushCommand, hval, if_true, hlen] at h
            cases h
          · simp only [pushCommand, hval, if_true, hlen, if_false] at h
            cases h
            refine ⟨remote, rfl, hval, rfl, fun _ hnil => ?_⟩
            subst hnil
            simp at hlen
      · simp only [pushCommand, hval, if_false, exitHelper] at h
        cases h

/-! ### Concrete instantiations of the theorems above -/

/-- Witness for C1 at a concrete environment and pointer list. -/
theorem prepare_one_check_witness :
    (prepareUpload envBA [] [pA, pB]).checkSubs =
      ((distinctNew [] [] [pA, pB]).filter
        (fun p => !(envBA.localExists p.oid p.size))).map (·.oid) :=
  (prepare_one_check_per_new_missing_oid envBA [] [pA, pB]).1

/-- Witness for C2 at a concrete environment and pointer list. -/
theorem prepare_progress_witness :
    ((prepareUpload envBA [] [pA, pB]).ready.map (·.size)).sum +
      (prepareUpload envBA [] [pA, pB]).skips.sum =
      (prepareUpload envBA [] [pA, pB]).meterAdds.sum :=
  (prepare_progress_accounting envBA [] [pA, pB]).2

/-- Witness for C3 at a concrete environment and pointer list. -/
theorem check_results_witness :
    (prepareUpload envBA [] [pA, pB]).skips =
      (((distinctNew [] [] [pA, pB]).filter
        (fun p => !(envBA.localExists p.oid p.size))).filter
        (fun p => envBA.remoteHas p.oid)).map (·.size) :=
  (check_results_skip_or_append envBA [] [pA, pB]).1

/-- Witness for the amended C4 at a concrete environment and pointer list. -/
theorem ready_list_groups_witness :
    ((distinctNew [] [] [pA, pB]).filter
      (fun p => envBA.localExists p.oid p.size)).Sublist [pA, pB] :=
  (ready_list_two_ordered_groups envBA [] [pA, pB]).2.1

/-- Witness for C5 at a concrete environment and pointer list. -/
theorem uploaded_monotone_witness :
    ["X"] ⊆ (prepareUpload envBA ["X"] [pA]).uploaded :=
  (uploaded_monotone_marked_at_handoff envBA ["X"] [pA]).1

/-- Witness for C6: the hypothesis holds at `["A"]` / `[pA]`, and the second
run produces an empty ready list. -/
theorem orchestrator_idempotent_witness :
    (∀ p ∈ [pA], p.oid ∈ ["A"]) ∧
      (prepareUpload envBA ["A"] [pA]).ready = [] :=
  ⟨by decide, (orchestrator_idempotent envBA ["A"] [pA] (by decide)).1⟩

/-- Witness for C7 at a concrete error list. -/
theorem await_witness :
    (Await ["hook declined"]).reported = ["hook declined"] :=
  (await_reports_and_exits_two ["hook declined"]).1

/-- Witness for C8 at a concrete environment and pointer list. -/
theorem dry_run_frame_witness :
    ∀ p ∈ [pA, pB],
      p.oid ∈ ((distinctNew [] [] [pA, pB]).map (·.oid)).reverse ++ [] :=
  (dry_run_notices_and_frame envBA [] [pA, pB]).2

/-- Witness for the amended C9: an invalid remote name is reported and the
process exits with status 1. -/
theorem push_usage_witness :
    pushCommand (fun _ => false) false ["badremote"] =
      .reportedExited ("Invalid remote name " ++ "badremote") 1 :=
  (push_usage_validation (fun _ => false) false ["badremote"]).2.1
    "badremote" [] rfl rfl

/-- Witness for C10 at a concrete pointer list. -/
theorem dry_run_dedup_witness :
    (dryRunLoop [pA] []).1 = (distinctNew [] [] [pA]).map noticeOf :=
  (dry_run_dedup_within_and_across envBA [] [pA] [pB]).2.1

end GitLfs
